import Mathlib

/-!
Verification development for the `bandclass` repository.

The file embeds, as executable Lean definitions, the core of
`src/bandclasslp.py` (class `BandClassLP`): the weight table, the four
constraint families built by `get_optimal_band`, the two objective terms,
the post-solve reshaping done by `wrangle_band_assignments_long`, and the
failure behaviour of Python dict indexing and `list.index` (modelled with
`Except`).  The external PuLP solver is treated as a black box: a parameter
producing a status integer and a valuation of the binary decision variables,
exactly the two pieces of information the Python code reads back from it.
-/

namespace BandClass

/-- Exceptions the Python code can raise while building or reshaping:
`keyError k` models a Python `KeyError` on dict access with key `k`
(the weight table, or `assignment[s][i]`), `valueError x` models the
`ValueError` raised by `list.index(x)` when `x` is absent. -/
inductive BandError where
  | keyError (key : String)
  | valueError (value : String)
deriving DecidableEq

/-- The constructor data of `BandClassLP.__init__`: the instrument → ideal
count dict and the student → ordered preference list dict, kept as
association lists to preserve Python dict insertion order (keys unique). -/
structure BandClassLP where
  instrument_idealcount : List (String × Nat)
  student_preferences : List (String × List String)
deriving DecidableEq

/-- `self.instruments = list(instrument_idealcount.keys())`. -/
def instruments (lp : BandClassLP) : List String :=
  lp.instrument_idealcount.map Prod.fst

/-- `self.students = list(student_preferences.keys())`. -/
def students (lp : BandClassLP) : List String :=
  lp.student_preferences.map Prod.fst

/-- Python `list.index`: 0-based position of the first occurrence, `none`
standing for the `ValueError` raised when the element is absent. -/
def listIndex : List String → String → Option Nat
  | [], _ => none
  | x :: xs, y => if x = y then some 0 else (listIndex xs y).map (· + 1)

/-- Python dict subscript on an association list: value of the first
matching key, `none` standing for `KeyError`. -/
def dictGet {β : Type} : List (String × β) → String → Option β
  | [], _ => none
  | p :: ps, k => if p.1 = k then some p.2 else dictGet ps k

/-- Comparison sense of a PuLP linear constraint (`==`, `>=`, `<=`). -/
inductive Sense where
  | eq
  | ge
  | le
deriving DecidableEq

/-- One linear constraint: a list of (decision variable, coefficient)
pairs, a sense and a right-hand side.  A decision variable is the
(student, instrument) pair indexing `assignment[s][i]`. -/
structure LinConstraint where
  terms : List ((String × String) × Int)
  sense : Sense
  rhs : Int
deriving DecidableEq

/-- Value of the linear term under a valuation of the decision variables. -/
def evalTerms (v : String → String → Int) (ts : List ((String × String) × Int)) : Int :=
  (ts.map fun t => t.2 * v t.1.1 t.1.2).sum

/-- Whether a valuation satisfies one constraint. -/
def satisfies (v : String → String → Int) (c : LinConstraint) : Bool :=
  match c.sense with
  | Sense.eq => evalTerms v c.terms == c.rhs
  | Sense.ge => decide (c.rhs ≤ evalTerms v c.terms)
  | Sense.le => decide (evalTerms v c.terms ≤ c.rhs)

/-- `floor(0.75 * n)` as computed by numpy on an integer target `n`; the
factor 0.75 is a dyadic rational so the float product is exact and the
result is the natural number `3 * n / 4`. -/
def floor_three_quarters (n : Nat) : Nat := 3 * n / 4

/-- `ceil(1.5 * n)` as computed by numpy on an integer target `n`; the
factor 1.5 is dyadic so the float product is exact and the ceiling is
`(3 * n + 1) / 2`. -/
def ceil_three_halves (n : Nat) : Nat := (3 * n + 1) / 2

/-- Constraint family 1 of `get_optimal_band` ("1 instrument per person"):
for every student, the sum of that student's variables over all
instruments equals 1. -/
def constraint1 (lp : BandClassLP) : List LinConstraint :=
  (students lp).map fun s =>
    { terms := (instruments lp).map fun i => ((s, i), (1 : Int))
      sense := Sense.eq
      rhs := 1 }

/-- Constraint family 2 ("Lower limit on instrumentation"), built only when
`preference != "students"`: for every instrument, the assigned count is at
least `floor(0.75 * ideal)`.  The loop runs over `self.instruments` and
looks each key up in `instrument_idealcount`; since dict keys are unique
this is the same as iterating over the (key, count) pairs. -/
def constraint2 (lp : BandClassLP) (preference : String) : List LinConstraint :=
  if preference ≠ "students" then
    lp.instrument_idealcount.map fun p =>
      { terms := (students lp).map fun s => ((s, p.1), (1 : Int))
        sense := Sense.ge
        rhs := (floor_three_quarters p.2 : Int) }
  else []

/-- Constraint family 3 ("No non-selected instruments for each person"):
for every student, the sum of the variables over the instruments NOT in
that student's preference list equals 0. -/
def constraint3 (lp : BandClassLP) : List LinConstraint :=
  lp.student_preferences.map fun p =>
    { terms := ((instruments lp).filter fun i => !(p.2.contains i)).map fun i =>
        ((p.1, i), (1 : Int))
      sense := Sense.eq
      rhs := 0 }

/-- Constraint family 4 ("Upper limit on instrumentation"), built only when
`preference != "students"`: for every instrument, the assigned count is at
most `ceil(1.5 * ideal)`. -/
def constraint4 (lp : BandClassLP) (preference : String) : List LinConstraint :=
  if preference ≠ "students" then
    lp.instrument_idealcount.map fun p =>
      { terms := (students lp).map fun s => ((s, p.1), (1 : Int))
        sense := Sense.le
        rhs := (ceil_three_halves p.2 : Int) }
  else []

/-- The weight dict of `get_optimal_band`, line 73:
`weights = ("students": (1, 5), "balanced": (3, 3), "instrumentation": (5, 1))`;
`none` stands for the `KeyError` a dict lookup raises on any other key. -/
def weights (preference : String) : Option (Int × Int) :=
  if preference = "students" then some (1, 5)
  else if preference = "balanced" then some (3, 3)
  else if preference = "instrumentation" then some (5, 1)
  else none

/-- The composition objective term exactly as the Python source builds it:
`obj += count - lpSum([assignment[s][i] for s in self.students]) * composition_weight`,
accumulated over the (instrument, count) pairs.  Note that, as in Python,
`-` binds looser than `*`, so the weight multiplies only the assigned
count, not the whole difference. -/
def compositionTerm (lp : BandClassLP) (composition_weight : Int)
    (v : String → String → Int) : Int :=
  lp.instrument_idealcount.foldl
    (fun obj p =>
       obj + ((p.2 : Int) - ((students lp).map fun s => v s p.1).sum * composition_weight))
    0

/-- Modelled from the spec: the composition term as the specification words
it, "for each instrument, (target_count − assigned_count) × composition_weight,
summed across instruments" — the weight multiplying the whole signed
difference.  Kept for refinement comparison against `compositionTerm`. -/
def compositionTermSpec (lp : BandClassLP) (composition_weight : Int)
    (v : String → String → Int) : Int :=
  lp.instrument_idealcount.foldl
    (fun obj p =>
       obj + ((p.2 : Int) - ((students lp).map fun s => v s p.1).sum) * composition_weight)
    0

/-- Concatenation of a list of lists (used to flatten nested comprehensions). -/
def concatAll {α : Type} : List (List α) → List α
  | [] => []
  | x :: xs => x ++ concatAll xs

/-- Traversal of a list by a fallible function, stopping at the first
error — the behaviour of a Python loop or comprehension in which an
iteration may raise. -/
def mapE {α β : Type} (f : α → Except BandError β) : List α → Except BandError (List β)
  | [] => Except.ok []
  | x :: xs =>
    match f x with
    | Except.error e => Except.error e
    | Except.ok y =>
      match mapE f xs with
      | Except.error e => Except.error e
      | Except.ok ys => Except.ok (y :: ys)

/-- The variable/rank pairs of the preference objective term,
`[assignment[s][i] * (preferences.index(i)) for i in preferences]` per
student: accessing `assignment[s][i]` raises `KeyError i` when the listed
instrument `i` is not a column of the variable dict (i.e. not a key of
`instrument_idealcount`), which is where an unknown listed instrument
first surfaces in `get_optimal_band`. -/
def preferenceCoeffs (lp : BandClassLP) :
    Except BandError (List ((String × String) × Int)) :=
  (mapE (fun p =>
      mapE (fun i =>
          if (instruments lp).contains i then
            match listIndex p.2 i with
            | some n => Except.ok ((p.1, i), (n : Int))
            | none => Except.error (BandError.valueError i)
          else Except.error (BandError.keyError i))
        p.2)
    lp.student_preferences).map concatAll

/-- Value of the preference objective term under a valuation: each listed
variable weighted by its 0-based rank, all scaled by `preference_weight`. -/
def preferenceTerm (coeffs : List ((String × String) × Int)) (preference_weight : Int)
    (v : String → String → Int) : Int :=
  (coeffs.map fun t => t.2 * v t.1.1 t.1.2).sum * preference_weight

/-- The problem handed to the black-box solver: the constraints in the
order the source adds them, and the objective as a function of a
valuation of the decision variables. -/
structure Problem where
  constraints : List LinConstraint
  objective : (String → String → Int) → Int

/-- Assembly of the `pulp.LpProblem` from the already-built pieces. -/
def buildProblem (lp : BandClassLP) (preference : String)
    (composition_weight preference_weight : Int)
    (coeffs : List ((String × String) × Int)) : Problem :=
  { constraints :=
      constraint1 lp ++ constraint2 lp preference ++ constraint3 lp
        ++ constraint4 lp preference
    objective := fun v =>
      compositionTerm lp composition_weight v + preferenceTerm coeffs preference_weight v }

/-- The wide band table returned to the caller:
`pd.DataFrame(assignment).applymap(pulp.value).transpose()` — one row per
student, one column per instrument, holding the solver's variable values. -/
abbrev Band := List (String × List (String × Int))

/-- Builds the wide band table from a valuation. -/
def mkBand (lp : BandClassLP) (v : String → String → Int) : Band :=
  (students lp).map fun s => (s, (instruments lp).map fun i => (i, v s i))

/-- Shallow embedding of `BandClassLP.get_optimal_band`.  The stages appear
in source order: the weight-dict lookup (line 73, `KeyError` on an unknown
mode), the four constraint families, the objective (whose preference term
is where a listed-but-unknown instrument raises `KeyError`), then the call
into the solver.  The solver's status is read only for logging, so the
function returns the variable-value table unconditionally once the problem
is built. -/
def get_optimal_band (lp : BandClassLP) (preference : String)
    (solver : Problem → Int × (String → String → Int)) : Except BandError Band :=
  match weights preference with
  | none => Except.error (BandError.keyError preference)
  | some (composition_weight, preference_weight) =>
    match preferenceCoeffs lp with
    | Except.error e => Except.error e
    | Except.ok coeffs =>
      let problem := buildProblem lp preference composition_weight preference_weight coeffs
      let result := solver problem
      Except.ok (mkBand lp result.2)

/-- A wide assignment DataFrame as `wrangle_band_assignments_long` receives
it: a student index, instrument columns, and a (total) cell valuation. -/
structure WideDF where
  index : List String
  columns : List String
  val : String → String → Int

/-- One melted column: a (student, instrument, value) triple per index row. -/
def meltCol (df : WideDF) (i : String) : List (String × String × Int) :=
  df.index.map fun s => (s, i, df.val s i)

/-- `band_assignments.melt(...)`: pandas emits the cells column-major —
for each column in order, every index row in order. -/
def melt (df : WideDF) : List (String × String × Int) :=
  concatAll (df.columns.map fun i => meltCol df i)

/-- One row of the long-form table: student, instrument, assignment flag
and derived preference rank. -/
structure LongRow where
  student : String
  instrument : String
  assignment : Int
  preference : Int
deriving DecidableEq

/-- The per-row lambda of `wrangle_band_assignments_long`:
`self.student_preferences[row.student].index(row.instrument) + 1 if row.assignment else 0`.
A truthy (nonzero) assignment flag triggers the dict lookup (`KeyError`
when the student is unknown) and the list `index` call (`ValueError` when
the instrument is not in the student's preference list). -/
def longRowOf (student_preferences : List (String × List String))
    (c : String × String × Int) : Except BandError LongRow :=
  if c.2.2 ≠ 0 then
    match dictGet student_preferences c.1 with
    | none => Except.error (BandError.keyError c.1)
    | some prefs =>
      match listIndex prefs c.2.1 with
      | none => Except.error (BandError.valueError c.2.1)
      | some n => Except.ok ⟨c.1, c.2.1, c.2.2, (n : Int) + 1⟩
  else Except.ok ⟨c.1, c.2.1, c.2.2, 0⟩

/-- Shallow embedding of `BandClassLP.wrangle_band_assignments_long`:
melt the wide table and apply the rank-derivation lambda to every row. -/
def wrangle_band_assignments_long (student_preferences : List (String × List String))
    (df : WideDF) : Except BandError (List LongRow) :=
  mapE (longRowOf student_preferences) (melt df)

/-! Concrete fixtures, used to instantiate the theorems below. -/

/-- Scenario A of the specification: two instruments with target 1 each and
two students with opposite preference orders. -/
def inpA : BandClassLP :=
  ⟨[("trumpet", 1), ("drums", 1)],
   [("Alice", ["trumpet", "drums"]), ("Bob", ["drums", "trumpet"])]⟩

/-- A feasible binary assignment for Scenario A: Alice plays trumpet and
Bob plays drums. -/
def vA : String → String → Int := fun s i =>
  if (s = "Alice" ∧ i = "trumpet") ∨ (s = "Bob" ∧ i = "drums") then 1 else 0

/-- An input in which the instruments are split between the students, so
each student leaves one instrument unlisted. -/
def inpSplit : BandClassLP :=
  ⟨[("trumpet", 1), ("drums", 1)], [("Alice", ["trumpet"]), ("Bob", ["drums"])]⟩

/-- An input whose single preference list contains a duplicate: the
specification calls this invalid, the code accepts it. -/
def dupInput : BandClassLP := ⟨[("tuba", 1)], [("x", ["tuba", "tuba"])]⟩

/-- Scenario C of the specification: one instrument with target 10 but only
three students, so the section floor `floor(7.5) = 7` is unsatisfiable. -/
def scenC : BandClassLP :=
  ⟨[("trumpet", 10)], [("s1", ["trumpet"]), ("s2", ["trumpet"]), ("s3", ["trumpet"])]⟩

/-- Scenario B of the specification: a preference list referencing an
instrument (flute) absent from the target map. -/
def scenB : BandClassLP := ⟨[("tuba", 5)], [("x", ["flute"])]⟩

/-- A one-instrument input with target 2, exhibiting the composition-term
weight placement. -/
def inpC1 : BandClassLP := ⟨[("tuba", 2)], [("a", ["tuba"])]⟩

/-- A solver stub reporting infeasibility (PuLP status -1) and leaving
every variable at 0. -/
def infeasibleSolver : Problem → Int × (String → String → Int) := fun _ => (-1, fun _ _ => 0)

/-- A solver stub reporting success (status 1) with an all-ones valuation. -/
def onesSolver : Problem → Int × (String → String → Int) := fun _ => (1, fun _ _ => 1)

/-- Preference map for the Result Shaper fixtures: one student ranking
instrument t before d. -/
def spL : List (String × List String) := [("a", ["t", "d"])]

/-- A wide table assigning student a to instrument t (its rank-1 choice). -/
def dfL : WideDF := ⟨["a"], ["t", "d"], fun _ i => if i = "t" then 1 else 0⟩

/-- The long-form rows `wrangle_band_assignments_long spL dfL` produces. -/
def rowsL : List LongRow := [⟨"a", "t", 1, 1⟩, ⟨"a", "d", 0, 0⟩]

/-- A preference map in which student a lists only instrument t. -/
def spBad : List (String × List String) := [("a", ["t"])]

/-- A wide table assigning student a to instrument d, which is not in that
student's preference list: the internal-consistency violation of claim C8. -/
def dfBad : WideDF := ⟨["a"], ["t", "d"], fun _ i => if i = "d" then 1 else 0⟩

/-! General lemmas about the embedded combinators. -/

/-- A left fold that only accumulates additions equals the initial value
plus the sum of the mapped list. -/
theorem foldl_add_eq_sum {α : Type} (g : α → Int) :
    ∀ (l : List α) (init : Int),
      l.foldl (fun acc x => acc + g x) init = init + (l.map g).sum := by
  intro l
  induction l with
  | nil => intro init; simp
  | cons a t ih =>
    intro init
    rw [List.foldl_cons, ih, List.map_cons, List.sum_cons]
    ring

/-- Sums of two maps over the same list differ by the sum of the pointwise
differences. -/
theorem sum_map_diff {α : Type} (f g : α → Int) :
    ∀ l : List α,
      (l.map fun x => f x - g x).sum = (l.map f).sum - (l.map g).sum := by
  intro l
  induction l with
  | nil => simp
  | cons a t ih => simp only [List.map_cons, List.sum_cons, ih]; ring

/-- A constant factor moves out of a mapped sum. -/
theorem sum_map_const_mul {α : Type} (k : Int) (f : α → Int) :
    ∀ l : List α, (l.map fun x => k * f x).sum = k * (l.map f).sum := by
  intro l
  induction l with
  | nil => simp
  | cons a t ih => simp only [List.map_cons, List.sum_cons, ih]; ring

/-- A sum of 0/1 values is nonnegative. -/
theorem binary_sum_nonneg {f : String → Int} :
    ∀ {l : List String}, (∀ x ∈ l, f x = 0 ∨ f x = 1) → 0 ≤ (l.map f).sum := by
  intro l
  induction l with
  | nil => intro _; simp
  | cons a t ih =>
    intro h
    have ha := h a (List.mem_cons_self a t)
    have ht := ih fun x hx => h x (List.mem_cons_of_mem a hx)
    rw [List.map_cons, List.sum_cons]
    rcases ha with ha | ha <;> omega

/-- A sum of 0/1 values equal to 0 forces every value to 0. -/
theorem binary_sum_zero {f : String → Int} :
    ∀ {l : List String}, (∀ x ∈ l, f x = 0 ∨ f x = 1) → (l.map f).sum = 0 →
      ∀ x ∈ l, f x = 0 := by
  intro l
  induction l with
  | nil => intro _ _ x hx; cases hx
  | cons a t ih =>
    intro h hsum x hx
    have ha := h a (List.mem_cons_self a t)
    have hbt : ∀ y ∈ t, f y = 0 ∨ f y = 1 := fun y hy => h y (List.mem_cons_of_mem a hy)
    have htz : (t.map f).sum = 0 := by
      have hnn := binary_sum_nonneg hbt
      rw [List.map_cons, List.sum_cons] at hsum
      rcases ha with ha | ha <;> omega
    rcases List.mem_cons.mp hx with rfl | hxt
    · rw [List.map_cons, List.sum_cons, htz] at hsum; omega
    · exact ih hbt htz x hxt

/-- A sum of 0/1 values equal to 1 has exactly one value 1, the rest 0. -/
theorem binary_sum_one {f : String → Int} :
    ∀ {l : List String}, (∀ x ∈ l, f x = 0 ∨ f x = 1) → (l.map f).sum = 1 →
      ∃ i, i ∈ l ∧ f i = 1 ∧ ∀ j ∈ l, j ≠ i → f j = 0 := by
  intro l
  induction l with
  | nil => intro _ hsum; simp at hsum
  | cons a t ih =>
    intro h hsum
    have ha := h a (List.mem_cons_self a t)
    have hbt : ∀ y ∈ t, f y = 0 ∨ f y = 1 := fun y hy => h y (List.mem_cons_of_mem a hy)
    rw [List.map_cons, List.sum_cons] at hsum
    rcases ha with ha | ha
    · have htsum : (t.map f).sum = 1 := by omega
      obtain ⟨i, hit, hi1, hrest⟩ := ih hbt htsum
      refine ⟨i, List.mem_cons_of_mem a hit, hi1, ?_⟩
      intro j hj hji
      rcases List.mem_cons.mp hj with rfl | hjt
      · exact ha
      · exact hrest j hjt hji
    · have htz : (t.map f).sum = 0 := by omega
      have hallz := binary_sum_zero hbt htz
      refine ⟨a, List.mem_cons_self a t, ha, ?_⟩
      intro j hj hja
      rcases List.mem_cons.mp hj with rfl | hjt
      · exact absurd rfl hja
      · exact hallz j hjt

/-- Evaluating a unit-coefficient linear term is summing the variable
values. -/
theorem evalTerms_map_one (v : String → String → Int) (g : String → String × String)
    (l : List String) :
    evalTerms v (l.map fun x => (g x, (1 : Int))) =
      (l.map fun x => v (g x).1 (g x).2).sum := by
  induction l with
  | nil => rfl
  | cons a t ih =>
    simp only [List.map_cons, evalTerms, List.sum_cons] at ih ⊢
    rw [ih]
    ring

/-- Membership propagates from a list to the first element found by
`listIndex`. -/
theorem listIndex_of_mem {x : String} :
    ∀ {l : List String}, x ∈ l → ∃ n, listIndex l x = some n := by
  intro l
  induction l with
  | nil => intro h; cases h
  | cons a t ih =>
    intro h
    by_cases hax : a = x
    · exact ⟨0, by simp [listIndex, hax]⟩
    · have hxt : x ∈ t := by
        rcases List.mem_cons.mp h with rfl | hxt
        · exact absurd rfl hax
        · exact hxt
      obtain ⟨n, hn⟩ := ih hxt
      exact ⟨n + 1, by simp [listIndex, hax, hn]⟩

/-- `listIndex` fails exactly like Python `list.index` on an absent
element. -/
theorem listIndex_none_of_not_mem {x : String} :
    ∀ {l : List String}, x ∉ l → listIndex l x = none := by
  intro l
  induction l with
  | nil => intro _; rfl
  | cons a t ih =>
    intro h
    have hax : a ≠ x := fun hax => h (hax ▸ List.mem_cons_self a t)
    have hxt : x ∉ t := fun hxt => h (List.mem_cons_of_mem a hxt)
    simp [listIndex, hax, ih hxt]

/-- `List.contains` agrees with membership on strings. -/
theorem contains_true_of_mem {x : String} :
    ∀ {l : List String}, x ∈ l → l.contains x = true := by
  intro l h
  exact List.elem_eq_true_of_mem h

/-- `List.contains` is false off the list. -/
theorem contains_false_of_not_mem {x : String} {l : List String} (h : x ∉ l) :
    l.contains x = false := by
  by_contra hc
  exact h (List.mem_of_elem_eq_true (Bool.of_not_eq_false hc))

/-- Every element of a successful `mapE` output comes from applying the
function to some input element. -/
theorem mapE_ok_mem {α β : Type} {f : α → Except BandError β} :
    ∀ {l : List α} {ys : List β}, mapE f l = Except.ok ys →
      ∀ y ∈ ys, ∃ x, x ∈ l ∧ f x = Except.ok y := by
  intro l
  induction l with
  | nil =>
    intro ys h y hy
    rw [show mapE f [] = Except.ok [] from rfl, Except.ok.injEq] at h
    subst h
    cases hy
  | cons a t ih =>
    intro ys h y hy
    unfold mapE at h
    cases hfa : f a with
    | error e => rw [hfa] at h; exact Except.noConfusion h
    | ok b =>
      rw [hfa] at h
      cases hrec : mapE f t with
      | error e =>
        rw [hrec] at h
        exact Except.noConfusion h
      | ok bs =>
        rw [hrec] at h
        have h3 : (Except.ok (b :: bs) : Except BandError (List β)) = Except.ok ys := h
        injection h3 with h2
        subst h2
        rcases List.mem_cons.mp hy with rfl | hybs
        · exact ⟨a, List.mem_cons_self a t, hfa⟩
        · obtain ⟨x, hxt, hfx⟩ := ih hrec y hybs
          exact ⟨x, List.mem_cons_of_mem a hxt, hfx⟩

/-- If some element makes the function fail, `mapE` fails. -/
theorem mapE_error_of_mem {α β : Type} {f : α → Except BandError β} {x : α} {e : BandError} :
    ∀ {l : List α}, x ∈ l → f x = Except.error e →
      ∃ e2, mapE f l = Except.error e2 := by
  intro l
  induction l with
  | nil => intro h; cases h
  | cons a t ih =>
    intro hmem hfx
    rcases List.mem_cons.mp hmem with rfl | hxt
    · exact ⟨e, by unfold mapE; rw [hfx]⟩
    · cases hfa : f a with
      | error e1 => exact ⟨e1, by unfold mapE; rw [hfa]⟩
      | ok b =>
        obtain ⟨e2, h2⟩ := ih hxt hfx
        exact ⟨e2, by unfold mapE; rw [hfa, h2]⟩

/-- If the function succeeds on every element, `mapE` succeeds. -/
theorem mapE_ok_of_forall {α β : Type} {f : α → Except BandError β} :
    ∀ {l : List α}, (∀ x ∈ l, ∃ y, f x = Except.ok y) →
      ∃ ys, mapE f l = Except.ok ys := by
  intro l
  induction l with
  | nil => intro _; exact ⟨[], rfl⟩
  | cons a t ih =>
    intro h
    obtain ⟨b, hb⟩ := h a (List.mem_cons_self a t)
    obtain ⟨bs, hbs⟩ := ih fun x hx => h x (List.mem_cons_of_mem a hx)
    exact ⟨b :: bs, by unfold mapE; rw [hb, hbs]⟩

/-- Membership in a flattened list of lists. -/
theorem mem_concatAll {α : Type} {x : α} {l : List α} :
    ∀ {ll : List (List α)}, l ∈ ll → x ∈ l → x ∈ concatAll ll := by
  intro ll
  induction ll with
  | nil => intro h; cases h
  | cons hd tl ih =>
    intro hl hx
    rcases List.mem_cons.mp hl with rfl | htl
    · exact List.mem_append_left _ hx
    · exact List.mem_append_right _ (ih htl hx)

/-- Every (index row, column) cell of the wide table appears in the melted
list with its value. -/
theorem mem_melt {df : WideDF} {s i : String} (hs : s ∈ df.index) (hi : i ∈ df.columns) :
    (s, i, df.val s i) ∈ melt df :=
  mem_concatAll (List.mem_map.mpr ⟨i, hi, rfl⟩) (List.mem_map.mpr ⟨s, hs, rfl⟩)

/-- When every listed instrument is a key of the target map, the
preference-term construction cannot raise. -/
theorem preferenceCoeffs_ok_of_known {lp : BandClassLP}
    (h : ∀ p ∈ lp.student_preferences, ∀ i ∈ p.2, i ∈ instruments lp) :
    ∃ coeffs, preferenceCoeffs lp = Except.ok coeffs := by
  unfold preferenceCoeffs
  have houter : ∃ yss, mapE (fun p : String × List String =>
      mapE (fun i =>
          if (instruments lp).contains i then
            match listIndex p.2 i with
            | some n => Except.ok ((p.1, i), (n : Int))
            | none => Except.error (BandError.valueError i)
          else Except.error (BandError.keyError i))
        p.2) lp.student_preferences = Except.ok yss := by
    apply mapE_ok_of_forall
    intro p hp
    apply mapE_ok_of_forall
    intro i hi
    obtain ⟨n, hn⟩ := listIndex_of_mem hi
    refine ⟨((p.1, i), (n : Int)), ?_⟩
    rw [contains_true_of_mem (h p hp i hi)]
    simp [hn]
  obtain ⟨yss, hyss⟩ := houter
  exact ⟨concatAll yss, by rw [hyss]; rfl⟩

/-- Once the weight lookup and the objective construction succeed,
`get_optimal_band` returns the solver valuation as a band table. -/
theorem get_optimal_band_eq_ok {lp : BandClassLP} {preference : String}
    {cw pw : Int} {coeffs : List ((String × String) × Int)}
    (solver : Problem → Int × (String → String → Int))
    (hw : weights preference = some (cw, pw))
    (hc : preferenceCoeffs lp = Except.ok coeffs) :
    get_optimal_band lp preference solver =
      Except.ok (mkBand lp (solver (buildProblem lp preference cw pw coeffs)).2) := by
  unfold get_optimal_band
  rw [hw, hc]

/-- The code's composition term in closed form: for each instrument
`count - assigned * weight`, summed. -/
theorem compositionTerm_eq_sum (lp : BandClassLP) (w : Int) (v : String → String → Int) :
    compositionTerm lp w v =
      (lp.instrument_idealcount.map fun p =>
        (p.2 : Int) - ((students lp).map fun s => v s p.1).sum * w).sum := by
  rw [compositionTerm]
  simpa using foldl_add_eq_sum
    (fun p : String × Nat => (p.2 : Int) - ((students lp).map fun s => v s p.1).sum * w)
    lp.instrument_idealcount 0

/-- The spec-worded composition term in closed form: for each instrument
`(count - assigned) * weight`, summed. -/
theorem compositionTermSpec_eq_sum (lp : BandClassLP) (w : Int) (v : String → String → Int) :
    compositionTermSpec lp w v =
      (lp.instrument_idealcount.map fun p =>
        ((p.2 : Int) - ((students lp).map fun s => v s p.1).sum) * w).sum := by
  rw [compositionTermSpec]
  simpa using foldl_add_eq_sum
    (fun p : String × Nat => ((p.2 : Int) - ((students lp).map fun s => v s p.1).sum) * w)
    lp.instrument_idealcount 0

/-- Auxiliary step for the composition-term comparison: the spec-worded
term exceeds the code's term by `(w - 1)` times the total target count,
independently of the valuation. -/
theorem comp_diff_aux (students_ : List String) (w : Int) (v : String → String → Int) :
    ∀ l : List (String × Nat),
      (l.map fun p => ((p.2 : Int) - (students_.map fun s => v s p.1).sum) * w).sum
          - (l.map fun p => (p.2 : Int) - (students_.map fun s => v s p.1).sum * w).sum
        = (w - 1) * (l.map fun p => (p.2 : Int)).sum := by
  intro l
  induction l with
  | nil => simp
  | cons a t ih =>
    simp only [List.map_cons, List.sum_cons]
    linear_combination ih

/-! The claims. -/

/-- C1 (corrected), counterexample: at the one-instrument input with
target 2 and weight 3 and the all-zero valuation, the code's composition
term is 2 while the specification's formula
`(target_count - assigned_count) * composition_weight` gives 6 — the
claim that the weight multiplies the whole signed difference is false on
the code. -/
theorem composition_term_spec_mismatch :
    compositionTerm inpC1 3 (fun _ _ => 0) ≠ compositionTermSpec inpC1 3 (fun _ _ => 0) := by
  decide

/-- C1 (corrected, amended claim): the composition term of the minimized
objective equals, for every instrument,
`target_count - assigned_count * composition_weight`, summed across
instruments — the weight multiplies only the assigned count; consequently
it differs from the spec's formula only by the assignment-independent
constant `(composition_weight - 1)` times the total target count, so both
rank feasible assignments identically. -/
theorem composition_term_weight_on_assigned_only (lp : BandClassLP) (w : Int)
    (v : String → String → Int) :
    compositionTerm lp w v =
        (lp.instrument_idealcount.map fun p =>
          (p.2 : Int) - ((students lp).map fun s => v s p.1).sum * w).sum ∧
      compositionTermSpec lp w v - compositionTerm lp w v =
        (w - 1) * (lp.instrument_idealcount.map fun p => (p.2 : Int)).sum := by
  constructor
  · exact compositionTerm_eq_sum lp w v
  · rw [compositionTerm_eq_sum, compositionTermSpec_eq_sum]
    exact comp_diff_aux (students lp) w v lp.instrument_idealcount

/-- C2 (corrected), counterexample: the input whose preference list holds
a duplicate — invalid per the specification — is not rejected: the solve
operation builds the whole problem and returns a band. -/
theorem duplicate_preferences_accepted :
    get_optimal_band dupInput "balanced" onesSolver = Except.ok [("x", [("tuba", 1)])] := by
  rfl

/-- C2 (corrected, amended claim): `get_optimal_band` performs no input
validation.  For any mode in the weight table, whenever every listed
instrument is a key of the target map the solve operation returns a band —
including for empty target maps, empty preference maps, duplicated or
empty preference lists; no InvalidInput detection exists before (or
after) problem construction. -/
theorem no_input_validation (lp : BandClassLP) (preference : String)
    (solver : Problem → Int × (String → String → Int)) (cw pw : Int)
    (hw : weights preference = some (cw, pw))
    (hknown : ∀ p ∈ lp.student_preferences, ∀ i ∈ p.2, i ∈ instruments lp) :
    ∃ band, get_optimal_band lp preference solver = Except.ok band := by
  obtain ⟨coeffs, hc⟩ := preferenceCoeffs_ok_of_known hknown
  exact ⟨_, get_optimal_band_eq_ok solver hw hc⟩

/-- C2 witness: the duplicate-list input satisfies the hypotheses, so the
solve operation accepts it and yields a band. -/
theorem no_input_validation_witness :
    ∃ band, get_optimal_band dupInput "balanced" onesSolver = Except.ok band :=
  no_input_validation dupInput "balanced" onesSolver 3 3 (by rfl) (by decide)

/-- C3 (corrected), counterexample: on Scenario C (target 10, three
students) the solver stub reports status -1 (infeasible), yet
`get_optimal_band` still returns a band — the all-zero variable table —
instead of surfacing a distinct infeasibility outcome. -/
theorem infeasible_status_still_returns_band :
    (infeasibleSolver (buildProblem scenC "balanced" 3 3
          [(("s1", "trumpet"), 0), (("s2", "trumpet"), 0), (("s3", "trumpet"), 0)])).1 = -1 ∧
      get_optimal_band scenC "balanced" infeasibleSolver =
        Except.ok [("s1", [("trumpet", 0)]), ("s2", [("trumpet", 0)]), ("s3", [("trumpet", 0)])] :=
  ⟨rfl, rfl⟩

/-- C3 (corrected, amended claim): the solver status is read only for
logging; whenever the weight lookup and the objective construction
succeed, `get_optimal_band` returns the solver's variable values as a
band no matter what status the solver reports — infeasibility is never
surfaced to the caller as a distinct outcome. -/
theorem band_returned_regardless_of_status (lp : BandClassLP) (preference : String)
    (cw pw : Int) (coeffs : List ((String × String) × Int)) (status : Int)
    (v : String → String → Int)
    (hw : weights preference = some (cw, pw))
    (hc : preferenceCoeffs lp = Except.ok coeffs) :
    get_optimal_band lp preference (fun _ => (status, v)) = Except.ok (mkBand lp v) :=
  get_optimal_band_eq_ok (fun _ => (status, v)) hw hc

/-- C3 witness: Scenario C with a solver reporting status -1 still yields
the (all-zero) band of the stub valuation. -/
theorem band_returned_regardless_of_status_witness :
    get_optimal_band scenC "balanced" infeasibleSolver =
      Except.ok (mkBand scenC (fun _ _ => 0)) :=
  band_returned_regardless_of_status scenC "balanced" 3 3
    [(("s1", "trumpet"), 0), (("s2", "trumpet"), 0), (("s3", "trumpet"), 0)] (-1)
    (fun _ _ => 0) (by rfl) (by rfl)

/-- C4 (confirmed): any binary valuation satisfying constraint family 1
(the per-student equality constraints `get_optimal_band` adds) gives each
student exactly one instrument valued 1, all other instruments valued 0 —
so any feasible wide assignment has exactly one 1 per student row. -/
theorem single_instrument_per_student (lp : BandClassLP) (v : String → String → Int)
    (hbin : ∀ s ∈ students lp, ∀ i ∈ instruments lp, v s i = 0 ∨ v s i = 1)
    (hsat : ∀ c ∈ constraint1 lp, satisfies v c = true) :
    ∀ s ∈ students lp, ∃ i, i ∈ instruments lp ∧ v s i = 1 ∧
      ∀ j ∈ instruments lp, j ≠ i → v s j = 0 := by
  intro s hs
  have hc := hsat _ (List.mem_map.mpr ⟨s, hs, rfl⟩)
  simp only [satisfies, beq_iff_eq] at hc
  have hsum : ((instruments lp).map fun i => v s i).sum = 1 := by
    rw [← evalTerms_map_one v (fun i => (s, i)) (instruments lp)]
    exact hc
  exact binary_sum_one (hbin s hs) hsum

/-- C4 witness: in Scenario A with the Alice → trumpet, Bob → drums
valuation, Alice's row has exactly one 1. -/
theorem single_instrument_per_student_witness :
    ∃ i, i ∈ instruments inpA ∧ vA "Alice" i = 1 ∧
      ∀ j ∈ instruments inpA, j ≠ i → vA "Alice" j = 0 :=
  single_instrument_per_student inpA vA (by decide) (by decide) "Alice" (by decide)

/-- C5 (confirmed): any binary valuation satisfying constraint family 3
(the non-selected-instruments equality constraints) assigns 0 to every
instrument absent from a student's preference list — no student is ever
assigned an unlisted instrument in a feasible wide assignment. -/
theorem no_unlisted_instrument_assigned (lp : BandClassLP) (v : String → String → Int)
    (hbin : ∀ s ∈ students lp, ∀ i ∈ instruments lp, v s i = 0 ∨ v s i = 1)
    (hsat : ∀ c ∈ constraint3 lp, satisfies v c = true) :
    ∀ p ∈ lp.student_preferences, ∀ i ∈ instruments lp, i ∉ p.2 → v p.1 i = 0 := by
  intro p hp i hi hni
  have hc := hsat _ (List.mem_map.mpr ⟨p, hp, rfl⟩)
  simp only [satisfies, beq_iff_eq] at hc
  have hsum : (((instruments lp).filter fun x => !(p.2.contains x)).map
      fun x => v p.1 x).sum = 0 := by
    rw [← evalTerms_map_one v (fun x => (p.1, x))]
    exact hc
  have hps : p.1 ∈ students lp := List.mem_map.mpr ⟨p, hp, rfl⟩
  have hbs : ∀ x ∈ (instruments lp).filter fun x => !(p.2.contains x),
      v p.1 x = 0 ∨ v p.1 x = 1 :=
    fun x hx => hbin p.1 hps x (List.mem_filter.mp hx).1
  apply binary_sum_zero hbs hsum
  rw [List.mem_filter]
  exact ⟨hi, by rw [contains_false_of_not_mem hni]; rfl⟩

/-- C5 witness: with each student listing only one instrument, Alice (who
listed only trumpet) is assigned 0 on drums. -/
theorem no_unlisted_instrument_assigned_witness : vA "Alice" "drums" = 0 :=
  no_unlisted_instrument_assigned inpSplit vA (by decide) (by decide)
    ("Alice", ["trumpet"]) (by decide) "drums" (by decide) (by decide)

/-- C6 (confirmed): when the mode differs from students, any valuation
satisfying constraint families 2 and 4 keeps every instrument's assigned
count within `[floor(0.75 * target), ceil(1.5 * target)]`; and in mode
students both families are empty — no floor or ceiling constraint is
added. -/
theorem section_bounds_enforced_or_skipped (lp : BandClassLP) (preference : String)
    (v : String → String → Int)
    (hsat2 : ∀ c ∈ constraint2 lp preference, satisfies v c = true)
    (hsat4 : ∀ c ∈ constraint4 lp preference, satisfies v c = true) :
    (preference ≠ "students" → ∀ p ∈ lp.instrument_idealcount,
        (floor_three_quarters p.2 : Int) ≤ ((students lp).map fun s => v s p.1).sum ∧
          ((students lp).map fun s => v s p.1).sum ≤ (ceil_three_halves p.2 : Int)) ∧
      constraint2 lp "students" = [] ∧ constraint4 lp "students" = [] := by
  refine ⟨?_, ?_, ?_⟩
  · intro hne p hp
    have h2 := hsat2 _ (by
      rw [constraint2, if_pos hne]
      exact List.mem_map.mpr ⟨p, hp, rfl⟩)
    have h4 := hsat4 _ (by
      rw [constraint4, if_pos hne]
      exact List.mem_map.mpr ⟨p, hp, rfl⟩)
    simp only [satisfies, decide_eq_true_eq] at h2 h4
    rw [evalTerms_map_one v (fun s => (s, p.1)) (students lp)] at h2 h4
    exact ⟨h2, h4⟩
  · rw [constraint2, if_neg]; simp
  · rw [constraint4, if_neg]; simp

/-- C6 witness: Scenario A in mode balanced — each section count 1 lies in
[0, 2] — and both bound families are empty lists in mode students. -/
theorem section_bounds_enforced_or_skipped_witness :
    ("balanced" ≠ "students" → ∀ p ∈ inpA.instrument_idealcount,
        (floor_three_quarters p.2 : Int) ≤ ((students inpA).map fun s => vA s p.1).sum ∧
          ((students inpA).map fun s => vA s p.1).sum ≤ (ceil_three_halves p.2 : Int)) ∧
      constraint2 inpA "students" = [] ∧ constraint4 inpA "students" = [] :=
  section_bounds_enforced_or_skipped inpA "balanced" vA (by decide) (by decide)

/-- C7 (confirmed): in any successfully produced long-form table, a row
with assignment flag 1 carries the 1-based rank of its instrument in the
student's preference list (so rank minus 1 is the 0-based index), and a
row with flag 0 carries rank 0. -/
theorem long_form_preference_rank (sp : List (String × List String)) (df : WideDF)
    (rows : List LongRow)
    (hok : wrangle_band_assignments_long sp df = Except.ok rows) :
    ∀ r ∈ rows,
      (r.assignment = 1 → ∃ prefs n, dictGet sp r.student = some prefs ∧
        listIndex prefs r.instrument = some n ∧ r.preference = (n : Int) + 1) ∧
      (r.assignment = 0 → r.preference = 0) := by
  intro r hr
  obtain ⟨c, _, hfc⟩ := mapE_ok_mem hok r hr
  unfold longRowOf at hfc
  split at hfc
  · rename_i hcz
    split at hfc
    · exact Except.noConfusion hfc
    · rename_i prefs hds
      split at hfc
      · exact Except.noConfusion hfc
      · rename_i n hli
        injection hfc with h2
        subst h2
        exact ⟨fun _ => ⟨prefs, n, hds, hli, rfl⟩, fun h0 => absurd h0 hcz⟩
  · rename_i hcz
    push_neg at hcz
    injection hfc with h2
    subst h2
    refine ⟨fun h1 => ?_, fun _ => rfl⟩
    exact absurd (hcz ▸ h1 : (0 : Int) = 1) (by decide)

/-- C7 witness: in the concrete long table, the assigned row (a, t) has
rank 1 = 0-based index 0 plus 1. -/
theorem long_form_preference_rank_witness :
    ∃ prefs n, dictGet spL "a" = some prefs ∧
      listIndex prefs "t" = some n ∧ (1 : Int) = (n : Int) + 1 :=
  (long_form_preference_rank spL dfL rowsL (by rfl) ⟨"a", "t", 1, 1⟩ (by decide)).1 (by rfl)

/-- C8 (confirmed): if some cell has assignment flag 1 but its instrument
is absent from that student's preference list, the shaping operation
raises (returns an error) instead of producing a defaulted rank. -/
theorem shape_errors_on_unlisted_instrument (sp : List (String × List String))
    (df : WideDF) (s i : String) (prefs : List String)
    (hs : s ∈ df.index) (hi : i ∈ df.columns) (hv : df.val s i = 1)
    (hp : dictGet sp s = some prefs) (hni : i ∉ prefs) :
    ∃ e, wrangle_band_assignments_long sp df = Except.error e := by
  have hcell : (s, i, df.val s i) ∈ melt df := mem_melt hs hi
  have hfc : longRowOf sp (s, i, df.val s i) = Except.error (BandError.valueError i) := by
    simp [longRowOf, hv, hp, listIndex_none_of_not_mem hni]
  obtain ⟨e2, h2⟩ := mapE_error_of_mem hcell hfc
  exact ⟨e2, h2⟩

/-- C8 witness: the table assigning student a to the unlisted instrument d
makes the shaping operation fail. -/
theorem shape_errors_on_unlisted_instrument_witness :
    ∃ e, wrangle_band_assignments_long spBad dfBad = Except.error e :=
  shape_errors_on_unlisted_instrument spBad dfBad "a" "d" ["t"]
    (by decide) (by decide) (by rfl) (by rfl) (by decide)

/-- C9 (confirmed): the weight pair (composition_weight, preference_weight)
comes from the fixed lookup — (1, 5) for students, (3, 3) for balanced,
and for instrumentation a pair with preference weight 1 and composition
weight 3 or 5 (the code has 5). -/
theorem weights_table_values :
    weights "students" = some (1, 5) ∧ weights "balanced" = some (3, 3) ∧
      ∃ c : Int, (c = 3 ∨ c = 5) ∧ weights "instrumentation" = some (c, 1) :=
  ⟨rfl, rfl, ⟨5, Or.inr rfl, rfl⟩⟩

/-- C10 (confirmed): any preference argument outside the three table keys
makes `get_optimal_band` fail with the key-lookup error at the weight
table; the failure is the same for every input and every solver, so no
variable, constraint or objective construction and no solver call can
depend on it. -/
theorem unknown_mode_key_error (lp : BandClassLP) (preference : String)
    (solver : Problem → Int × (String → String → Int))
    (h1 : preference ≠ "students") (h2 : preference ≠ "balanced")
    (h3 : preference ≠ "instrumentation") :
    get_optimal_band lp preference solver = Except.error (BandError.keyError preference) := by
  unfold get_optimal_band weights
  rw [if_neg h1, if_neg h2, if_neg h3]

/-- C10 witness: the mode string other fails with its key error. -/
theorem unknown_mode_key_error_witness :
    get_optimal_band scenB "other" infeasibleSolver =
      Except.error (BandError.keyError "other") :=
  unknown_mode_key_error scenB "other" infeasibleSolver (by decide) (by decide) (by decide)

end BandClass
